import Mathlib

/-!
Verification of the event-analysis script `helper_scripts/analyze.py`:
the per-merchant financial aggregation (`analyze_kafka_dump`), the
two-pointer chronological merge and inventory reconstruction
(`create_inventory_graph`), and the timestamp conversion
(`convert_timestamps`).  Dictionaries with default values
(`defaultdict(float)`, `defaultdict(list)`) are modelled as total maps
with the default as initial value; monetary floats are modelled as `Rat`;
parsed timestamps are modelled as `Nat` (any totally ordered stamp works,
the script only compares them with `<=`).
-/

namespace PriceWars

/-- A raw record of the `buyOffer` dump as loaded from JSON: seller id,
purchased quantity, unit price, HTTP outcome code and the not yet parsed
timestamp string. -/
structure RawBuyOffer where
  merchant_id : String
  amount : Int
  price : Rat
  http_code : Int
  timestamp : String
deriving Repr, DecidableEq

/-- A raw record of the `producer` dump (replenishment order): seller id,
ordered quantity, billed cost and the not yet parsed timestamp string. -/
structure RawProducer where
  merchant_id : String
  amount : Int
  billing_amount : Rat
  timestamp : String
deriving Repr, DecidableEq

/-- A record of the `holding_cost` dump: seller id and the charged cost. -/
structure HoldingCostEvent where
  merchant_id : String
  cost : Rat
deriving Repr, DecidableEq

/-- A `buyOffer` record after `convert_timestamps`: the timestamp string has
been replaced by a parsed, totally ordered time value. -/
structure SaleEvent where
  merchant_id : String
  amount : Int
  price : Rat
  http_code : Int
  timestamp : Nat
deriving Repr, DecidableEq

/-- A `producer` record after `convert_timestamps`. -/
structure OrderEvent where
  merchant_id : String
  amount : Int
  billing_amount : Rat
  timestamp : Nat
deriving Repr, DecidableEq

/-- An entry appended to `inventory_progressions`: the merchant key together
with the `(timestamp, signed quantity)` pair (analyze.py lines 72/76/80/84). -/
abbrev Delta := String × Nat × Int

/-- One `revenue[event['merchant_id']] += event['amount'] * event['price']`
step (analyze.py line 29) on the `defaultdict(float)` modelled as a total
map. -/
def revenueStep (acc : String → Rat) (e : RawBuyOffer) : String → Rat :=
  fun m => if m = e.merchant_id then acc m + (e.amount : Rat) * e.price else acc m

/-- The revenue dictionary after folding all `buyOffer` events
(analyze.py lines 26-29).  No outcome-code filter is applied here. -/
def revenue (events : List RawBuyOffer) : String → Rat :=
  events.foldl revenueStep (fun _ => 0)

/-- One `holding_cost[event['merchant_id']] += event['cost']` step
(analyze.py line 34). -/
def holdingStep (acc : String → Rat) (e : HoldingCostEvent) : String → Rat :=
  fun m => if m = e.merchant_id then acc m + e.cost else acc m

/-- The holding-cost dictionary after folding all `holding_cost` events
(analyze.py lines 31-34). -/
def holding_cost (events : List HoldingCostEvent) : String → Rat :=
  events.foldl holdingStep (fun _ => 0)

/-- One `order_cost[event['merchant_id']] += event['billing_amount']` step
(analyze.py line 39). -/
def orderStep (acc : String → Rat) (e : RawProducer) : String → Rat :=
  fun m => if m = e.merchant_id then acc m + e.billing_amount else acc m

/-- The order-cost dictionary after folding all `producer` events
(analyze.py lines 36-39). -/
def order_cost (events : List RawProducer) : String → Rat :=
  events.foldl orderStep (fun _ => 0)

/-- The profit of one merchant,
`revenue[m] - holding_cost[m] - order_cost[m]` (analyze.py line 41). -/
def profitOf (buys : List RawBuyOffer) (holds : List HoldingCostEvent)
    (prods : List RawProducer) (m : String) : Rat :=
  revenue buys m - holding_cost holds m - order_cost prods m

/-- The profit dictionary comprehension of analyze.py lines 41-42: one entry
per key of `merchant_id_mapping`, computed from the three finished
aggregation dictionaries. -/
def profitMap (mapping : List (String × String)) (buys : List RawBuyOffer)
    (holds : List HoldingCostEvent) (prods : List RawProducer) : List (String × Rat) :=
  mapping.map (fun p => (p.1, profitOf buys holds prods p.1))

/-- `sorted(merchant_id_mapping, key=merchant_id_mapping.get)`
(analyze.py line 47): the id-to-name mapping sorted by display name. -/
def sortedMapping (mapping : List (String × String)) : List (String × String) :=
  mapping.mergeSort (fun a b => decide (a.2 ≤ b.2))

/-- One row of `results.csv`: name, revenue, holding cost, order cost,
profit (analyze.py lines 48-49). -/
abbrev SummaryRow := String × Rat × Rat × Rat × Rat

/-- The body rows of `results.csv` (analyze.py lines 47-49): one row per key
of `merchant_id_mapping`, in display-name order; dictionary reads on the
`defaultdict`s default to zero for absent keys. -/
def summaryRows (mapping : List (String × String)) (buys : List RawBuyOffer)
    (holds : List HoldingCostEvent) (prods : List RawProducer) : List SummaryRow :=
  (sortedMapping mapping).map
    (fun p => (p.2, revenue buys p.1, holding_cost holds p.1, order_cost prods p.1,
      profitOf buys holds prods p.1))

/-- The pair appended for a replenishment order, tagged with its merchant key
(analyze.py lines 72 and 80): `(order['timestamp'], order['amount'])`. -/
def orderDelta (o : OrderEvent) : Delta :=
  (o.merchant_id, o.timestamp, o.amount)

/-- The pair appended for a successful sale, tagged with its merchant key
(analyze.py lines 76 and 84): `(sale['timestamp'], -1 * sale['amount'])`. -/
def saleDelta (s : SaleEvent) : Delta :=
  (s.merchant_id, s.timestamp, -1 * s.amount)

/-- Shallow embedding of the merge loop of `create_inventory_graph`
(analyze.py lines 69-85), with the flattened emission order made explicit.
The loop runs while BOTH `sale_index < len(sales)` and
`order_index < len(orders)` hold; the body keeps all four branches of the
source, including the two exhaustion guards of lines 70-77. -/
def inventoryMerge (sales : List SaleEvent) (orders : List OrderEvent)
    (sale_index order_index : Nat) : List Delta :=
  if h : sale_index < sales.length ∧ order_index < orders.length then
    if sales.length ≤ sale_index then
      orderDelta (orders.get ⟨order_index, h.2⟩) ::
        inventoryMerge sales orders sale_index (order_index + 1)
    else if orders.length ≤ order_index then
      saleDelta (sales.get ⟨sale_index, h.1⟩) ::
        inventoryMerge sales orders (sale_index + 1) order_index
    else if (orders.get ⟨order_index, h.2⟩).timestamp ≤
        (sales.get ⟨sale_index, h.1⟩).timestamp then
      orderDelta (orders.get ⟨order_index, h.2⟩) ::
        inventoryMerge sales orders sale_index (order_index + 1)
    else
      saleDelta (sales.get ⟨sale_index, h.1⟩) ::
        inventoryMerge sales orders (sale_index + 1) order_index
  else []
termination_by (sales.length - sale_index) + (orders.length - order_index)
decreasing_by
  all_goals simp_wf
  all_goals omega

/-- Companion instrumentation of `inventoryMerge`: counts how often the two
exhaustion guards of analyze.py lines 70-77 (the first two branches of the
loop body) are executed. -/
def deadGuardCount (sales : List SaleEvent) (orders : List OrderEvent)
    (sale_index order_index : Nat) : Nat :=
  if h : sale_index < sales.length ∧ order_index < orders.length then
    if sales.length ≤ sale_index then
      1 + deadGuardCount sales orders sale_index (order_index + 1)
    else if orders.length ≤ order_index then
      1 + deadGuardCount sales orders (sale_index + 1) order_index
    else if (orders.get ⟨order_index, h.2⟩).timestamp ≤
        (sales.get ⟨sale_index, h.1⟩).timestamp then
      deadGuardCount sales orders sale_index (order_index + 1)
    else
      deadGuardCount sales orders (sale_index + 1) order_index
  else 0
termination_by (sales.length - sale_index) + (orders.length - order_index)
decreasing_by
  all_goals simp_wf
  all_goals omega

/-- The same merge expressed structurally on the unconsumed suffixes of the
two lists; `inventoryMerge sales orders si oi` equals
`mergeAnd (sales.drop si) (orders.drop oi)` (proved below).  The name
records that the loop condition conjoins both bounds. -/
def mergeAnd : List SaleEvent → List OrderEvent → List Delta
  | [], _ => []
  | _ :: _, [] => []
  | s :: ss, o :: os =>
    if o.timestamp ≤ s.timestamp then orderDelta o :: mergeAnd (s :: ss) os
    else saleDelta s :: mergeAnd ss (o :: os)
termination_by ss os => ss.length + os.length

/-- `sales = [sale for sale in sales if sale['http_code'] == 200]`
(analyze.py line 62). -/
def salesForMerge (sales : List SaleEvent) : List SaleEvent :=
  sales.filter (fun s => s.http_code == 200)

/-- The merged delta sequence of `create_inventory_graph` on already parsed
events: successful sales only, all orders, both merged from index 0. -/
def createInventoryDeltas (sales : List SaleEvent) (orders : List OrderEvent) : List Delta :=
  inventoryMerge (salesForMerge sales) orders 0 0

/-- One `inventory_progressions[key].append((timestamp, change))` step on the
`defaultdict(list)` modelled as a total map (analyze.py line 67 with
lines 72/76/80/84). -/
def addDelta (acc : String → List (Nat × Int)) (d : Delta) : String → List (Nat × Int) :=
  fun m => if m = d.1 then acc m ++ [(d.2.1, d.2.2)] else acc m

/-- The per-merchant partition of a merged delta sequence, in emission
order, as built by the appends inside the merge loop. -/
def inventoryProgressions (deltas : List Delta) : String → List (Nat × Int) :=
  deltas.foldl addDelta (fun _ => [])

/-- Running sums starting from `acc`, one output per input element:
the model of `itertools.accumulate` (analyze.py line 91). -/
def accumFrom (acc : Int) : List Int → List Int
  | [] => []
  | x :: xs => (acc + x) :: accumFrom (acc + x) xs

/-- `inventory_levels = list(itertools.accumulate(inventory_changes))`
(analyze.py line 91). -/
def inventoryLevels (changes : List Int) : List Int :=
  accumFrom 0 changes

/-- `convert_timestamps` (analyze.py lines 164-167) on `buyOffer` records:
every timestamp string is parsed in order; the first failure aborts the
whole conversion (the `ValueError` of `strptime`), so no event list with a
bad timestamp ever reaches the merge. -/
def convertSaleTimestamps (parse : String → Option Nat) :
    List RawBuyOffer → Option (List SaleEvent)
  | [] => some []
  | e :: es =>
    match parse e.timestamp with
    | none => none
    | some t =>
      match convertSaleTimestamps parse es with
      | none => none
      | some rest => some (⟨e.merchant_id, e.amount, e.price, e.http_code, t⟩ :: rest)

/-- `convert_timestamps` (analyze.py lines 164-167) on `producer` records. -/
def convertOrderTimestamps (parse : String → Option Nat) :
    List RawProducer → Option (List OrderEvent)
  | [] => some []
  | e :: es =>
    match parse e.timestamp with
    | none => none
    | some t =>
      match convertOrderTimestamps parse es with
      | none => none
      | some rest => some (⟨e.merchant_id, e.amount, e.billing_amount, t⟩ :: rest)

/-- The delta-producing part of `create_inventory_graph`
(analyze.py lines 60-85) from raw records: filter the sales by outcome code
200, convert the timestamps of the filtered sales and of all orders (either
failure is fatal and yields no output at all), then merge. -/
def inventoryGraphDeltas (parse : String → Option Nat)
    (rawSales : List RawBuyOffer) (rawOrders : List RawProducer) : Option (List Delta) :=
  match convertSaleTimestamps parse (rawSales.filter (fun s => s.http_code == 200)) with
  | none => none
  | some sales =>
    match convertOrderTimestamps parse rawOrders with
    | none => none
    | some orders => some (inventoryMerge sales orders 0 0)

/-- Numeric value of a decimal digit character. -/
def digitVal (c : Char) : Nat := c.toNat - 48

/-- The number denoted by a list of decimal digit characters. -/
def digitsToNat (cs : List Char) : Nat :=
  cs.foldl (fun n c => 10 * n + digitVal c) 0

/-- Modelled from the spec: the timestamp parser is the external library
call `datetime.datetime.strptime(s, '%Y-%m-%dT%H:%M:%S.%fZ')`
(analyze.py line 167), whose implementation is not part of this
repository.  Per the spec, timestamps are strings in a fixed
fractional-seconds UTC-labeled format.  The model accepts exactly the
shape `YYYY-MM-DDTHH:MM:SS.<1-6 fraction digits>Z` and maps it to a
number that orders chronologically (all digit fields concatenated, the
fraction padded to six digits); any other string fails to parse (`none`,
the model of the `ValueError` raised by `strptime`). -/
def parseTimestampZ (s : String) : Option Nat :=
  match s.data with
  | y1 :: y2 :: y3 :: y4 :: '-' :: m1 :: m2 :: '-' :: d1 :: d2 :: 'T' ::
      h1 :: h2 :: ':' :: n1 :: n2 :: ':' :: s1 :: s2 :: '.' :: rest =>
    match rest.reverse with
    | 'Z' :: revFrac =>
      let frac := revFrac.reverse
      let fields := [y1, y2, y3, y4, m1, m2, d1, d2, h1, h2, n1, n2, s1, s2]
      if fields.all Char.isDigit && frac.all Char.isDigit &&
          decide (1 ≤ frac.length) && decide (frac.length ≤ 6) then
        some (digitsToNat (fields ++ frac ++ List.replicate (6 - frac.length) '0'))
      else none
    | _ => none
  | _ => none

/-! ### Helper lemmas about the merge -/

theorem mergeAnd_nil_left (orders : List OrderEvent) : mergeAnd [] orders = [] := by
  simp [mergeAnd]

theorem mergeAnd_nil_right (sales : List SaleEvent) : mergeAnd sales [] = [] := by
  cases sales <;> simp [mergeAnd]

theorem mergeAnd_cons_cons (s : SaleEvent) (ss : List SaleEvent)
    (o : OrderEvent) (os : List OrderEvent) :
    mergeAnd (s :: ss) (o :: os) =
      if o.timestamp ≤ s.timestamp then orderDelta o :: mergeAnd (s :: ss) os
      else saleDelta s :: mergeAnd ss (o :: os) := by
  simp [mergeAnd]

theorem inventoryMerge_eq_mergeAnd_aux :
    ∀ (n : ℕ) (sales : List SaleEvent) (orders : List OrderEvent) (si oi : ℕ),
      sales.length - si + (orders.length - oi) ≤ n →
      inventoryMerge sales orders si oi = mergeAnd (sales.drop si) (orders.drop oi) := by
  intro n
  induction n with
  | zero =>
    intro sales orders si oi hn
    have hs : sales.length ≤ si := by omega
    rw [inventoryMerge, dif_neg (by omega), List.drop_eq_nil_of_le hs, mergeAnd_nil_left]
  | succ n ih =>
    intro sales orders si oi hn
    by_cases h : si < sales.length ∧ oi < orders.length
    · obtain ⟨h1, h2⟩ := h
      rw [inventoryMerge, dif_pos ⟨h1, h2⟩, if_neg (by omega), if_neg (by omega),
        List.drop_eq_getElem_cons h1, List.drop_eq_getElem_cons h2, mergeAnd_cons_cons]
      simp only [List.get_eq_getElem]
      by_cases hts : orders[oi].timestamp ≤ sales[si].timestamp
      · rw [if_pos hts, if_pos hts, ← List.drop_eq_getElem_cons h1,
          ih sales orders si (oi + 1) (by omega)]
      · rw [if_neg hts, if_neg hts, ← List.drop_eq_getElem_cons h2,
          ih sales orders (si + 1) oi (by omega)]
    · rw [inventoryMerge, dif_neg h]
      rcases Nat.lt_or_ge si sales.length with h1 | h1
      · have h2 : orders.length ≤ oi := by omega
        rw [List.drop_eq_nil_of_le h2, mergeAnd_nil_right]
      · rw [List.drop_eq_nil_of_le h1, mergeAnd_nil_left]

theorem inventoryMerge_eq_mergeAnd (sales : List SaleEvent) (orders : List OrderEvent)
    (si oi : ℕ) :
    inventoryMerge sales orders si oi = mergeAnd (sales.drop si) (orders.drop oi) :=
  inventoryMerge_eq_mergeAnd_aux (sales.length - si + (orders.length - oi))
    sales orders si oi le_rfl

theorem inventoryMerge_zero (sales : List SaleEvent) (orders : List OrderEvent) :
    inventoryMerge sales orders 0 0 = mergeAnd sales orders := by
  simpa using inventoryMerge_eq_mergeAnd sales orders 0 0

/-- Ordering of merged deltas by their emitted timestamp component. -/
abbrev deltaTimeLE (a b : Delta) : Prop := a.2.1 ≤ b.2.1

theorem mem_mergeAnd :
    ∀ (sales : List SaleEvent) (orders : List OrderEvent),
      ∀ d ∈ mergeAnd sales orders,
        (∃ s ∈ sales, d = saleDelta s) ∨ (∃ o ∈ orders, d = orderDelta o) := by
  intro sales orders
  induction sales, orders using mergeAnd.induct with
  | case1 orders => simp [mergeAnd_nil_left]
  | case2 s ss => simp [mergeAnd_nil_right]
  | case3 s ss o os hle ih =>
    intro d hd
    rw [mergeAnd_cons_cons, if_pos hle] at hd
    rcases List.mem_cons.mp hd with rfl | hd
    · exact Or.inr ⟨o, List.mem_cons_self o os, rfl⟩
    · rcases ih d hd with ⟨s', hs', rfl⟩ | ⟨o', ho', rfl⟩
      · exact Or.inl ⟨s', hs', rfl⟩
      · exact Or.inr ⟨o', List.mem_cons_of_mem o ho', rfl⟩
  | case4 s ss o os hle ih =>
    intro d hd
    rw [mergeAnd_cons_cons, if_neg hle] at hd
    rcases List.mem_cons.mp hd with rfl | hd
    · exact Or.inl ⟨s, List.mem_cons_self s ss, rfl⟩
    · rcases ih d hd with ⟨s', hs', rfl⟩ | ⟨o', ho', rfl⟩
      · exact Or.inl ⟨s', List.mem_cons_of_mem s hs', rfl⟩
      · exact Or.inr ⟨o', ho', rfl⟩

theorem mergeAnd_pairwise :
    ∀ (sales : List SaleEvent) (orders : List OrderEvent),
      sales.Pairwise (fun a b => a.timestamp ≤ b.timestamp) →
      orders.Pairwise (fun a b => a.timestamp ≤ b.timestamp) →
      (mergeAnd sales orders).Pairwise deltaTimeLE := by
  intro sales orders
  induction sales, orders using mergeAnd.induct with
  | case1 orders => intro _ _; simp [mergeAnd_nil_left]
  | case2 s ss => intro _ _; simp [mergeAnd_nil_right]
  | case3 s ss o os hle ih =>
    intro hs ho
    rw [mergeAnd_cons_cons, if_pos hle]
    refine List.pairwise_cons.mpr ⟨?_, ih hs (List.pairwise_cons.mp ho).2⟩
    intro d hd
    rcases mem_mergeAnd _ _ d hd with ⟨s', hs', rfl⟩ | ⟨o', ho', rfl⟩
    · rcases List.mem_cons.mp hs' with rfl | hs'
      · exact hle
      · exact le_trans hle ((List.pairwise_cons.mp hs).1 s' hs')
    · exact (List.pairwise_cons.mp ho).1 o' ho'
  | case4 s ss o os hle ih =>
    intro hs ho
    rw [mergeAnd_cons_cons, if_neg hle]
    refine List.pairwise_cons.mpr ⟨?_, ih (List.pairwise_cons.mp hs).2 ho⟩
    intro d hd
    rcases mem_mergeAnd _ _ d hd with ⟨s', hs', rfl⟩ | ⟨o', ho', rfl⟩
    · exact (List.pairwise_cons.mp hs).1 s' hs'
    · rcases List.mem_cons.mp ho' with rfl | ho'
      · exact le_of_lt (lt_of_not_le hle)
      · exact le_trans (le_of_lt (lt_of_not_le hle)) ((List.pairwise_cons.mp ho).1 o' ho')

theorem length_mergeAnd :
    ∀ (sales : List SaleEvent) (orders : List OrderEvent),
      (mergeAnd sales orders).length ≤ sales.length + orders.length := by
  intro sales orders
  induction sales, orders using mergeAnd.induct with
  | case1 orders => simp [mergeAnd_nil_left]
  | case2 s ss => simp [mergeAnd_nil_right]
  | case3 s ss o os hle ih =>
    rw [mergeAnd_cons_cons, if_pos hle]
    simp only [List.length_cons] at ih ⊢
    omega
  | case4 s ss o os hle ih =>
    rw [mergeAnd_cons_cons, if_neg hle]
    simp only [List.length_cons] at ih ⊢
    omega

theorem deadGuardCount_eq_zero_aux :
    ∀ (n : ℕ) (sales : List SaleEvent) (orders : List OrderEvent) (si oi : ℕ),
      sales.length - si + (orders.length - oi) ≤ n →
      deadGuardCount sales orders si oi = 0 := by
  intro n
  induction n with
  | zero =>
    intro sales orders si oi hn
    rw [deadGuardCount, dif_neg (by omega)]
  | succ n ih =>
    intro sales orders si oi hn
    by_cases h : si < sales.length ∧ oi < orders.length
    · rw [deadGuardCount, dif_pos h, if_neg (by omega), if_neg (by omega)]
      split
      · exact ih sales orders si (oi + 1) (by omega)
      · exact ih sales orders (si + 1) oi (by omega)
    · rw [deadGuardCount, dif_neg h]

theorem deadGuardCount_eq_zero (sales : List SaleEvent) (orders : List OrderEvent)
    (si oi : ℕ) : deadGuardCount sales orders si oi = 0 :=
  deadGuardCount_eq_zero_aux (sales.length - si + (orders.length - oi))
    sales orders si oi le_rfl

theorem inventoryMerge_stops (sales : List SaleEvent) (orders : List OrderEvent)
    (si oi : ℕ) (h : sales.length ≤ si ∨ orders.length ≤ oi) :
    inventoryMerge sales orders si oi = [] := by
  rw [inventoryMerge, dif_neg (by omega)]

theorem inventoryMerge_tie (sales : List SaleEvent) (orders : List OrderEvent)
    (si oi : ℕ) (h1 : si < sales.length) (h2 : oi < orders.length)
    (hts : (orders.get ⟨oi, h2⟩).timestamp = (sales.get ⟨si, h1⟩).timestamp) :
    inventoryMerge sales orders si oi =
      orderDelta (orders.get ⟨oi, h2⟩) :: inventoryMerge sales orders si (oi + 1) := by
  rw [inventoryMerge, dif_pos ⟨h1, h2⟩, if_neg (by omega), if_neg (by omega),
    if_pos (le_of_eq hts)]

/-! ### Helper lemmas about the aggregation dictionaries -/

theorem foldl_revenueStep (events : List RawBuyOffer) (acc : String → Rat) (m : String) :
    (events.foldl revenueStep acc) m =
      acc m + ((events.filter (fun e => e.merchant_id == m)).map
        (fun e => (e.amount : Rat) * e.price)).sum := by
  induction events generalizing acc with
  | nil => simp
  | cons e es ih =>
    rw [List.foldl_cons, ih]
    by_cases h : e.merchant_id = m
    · subst h
      simp [revenueStep, List.filter_cons, add_assoc]
    · have h' : ¬ m = e.merchant_id := fun hh => h hh.symm
      simp [revenueStep, List.filter_cons, h, h']

theorem revenue_eq_sum (events : List RawBuyOffer) (m : String) :
    revenue events m = ((events.filter (fun e => e.merchant_id == m)).map
      (fun e => (e.amount : Rat) * e.price)).sum := by
  simpa using foldl_revenueStep events (fun _ => 0) m

theorem revenue_cons (e : RawBuyOffer) (events : List RawBuyOffer) (m : String) :
    revenue (e :: events) m =
      (if m = e.merchant_id then (e.amount : Rat) * e.price else 0) + revenue events m := by
  rw [revenue, List.foldl_cons, foldl_revenueStep, revenue_eq_sum]
  by_cases h : m = e.merchant_id <;> simp [revenueStep, h]

theorem foldl_holdingStep (events : List HoldingCostEvent) (acc : String → Rat) (m : String) :
    (events.foldl holdingStep acc) m =
      acc m + ((events.filter (fun e => e.merchant_id == m)).map (fun e => e.cost)).sum := by
  induction events generalizing acc with
  | nil => simp
  | cons e es ih =>
    rw [List.foldl_cons, ih]
    by_cases h : e.merchant_id = m
    · subst h
      simp [holdingStep, List.filter_cons, add_assoc]
    · have h' : ¬ m = e.merchant_id := fun hh => h hh.symm
      simp [holdingStep, List.filter_cons, h, h']

theorem holding_cost_eq_sum (events : List HoldingCostEvent) (m : String) :
    holding_cost events m =
      ((events.filter (fun e => e.merchant_id == m)).map (fun e => e.cost)).sum := by
  simpa using foldl_holdingStep events (fun _ => 0) m

theorem foldl_orderStep (events : List RawProducer) (acc : String → Rat) (m : String) :
    (events.foldl orderStep acc) m =
      acc m + ((events.filter (fun e => e.merchant_id == m)).map
        (fun e => e.billing_amount)).sum := by
  induction events generalizing acc with
  | nil => simp
  | cons e es ih =>
    rw [List.foldl_cons, ih]
    by_cases h : e.merchant_id = m
    · subst h
      simp [orderStep, List.filter_cons, add_assoc]
    · have h' : ¬ m = e.merchant_id := fun hh => h hh.symm
      simp [orderStep, List.filter_cons, h, h']

theorem order_cost_eq_sum (events : List RawProducer) (m : String) :
    order_cost events m =
      ((events.filter (fun e => e.merchant_id == m)).map (fun e => e.billing_amount)).sum := by
  simpa using foldl_orderStep events (fun _ => 0) m

theorem revenue_filter (events : List RawBuyOffer) (P : RawBuyOffer → Bool) (m : String)
    (h : ∀ e, e.merchant_id = m → P e = true) :
    revenue (events.filter P) m = revenue events m := by
  have hf : events.filter (fun e => e.merchant_id == m && P e) =
      events.filter (fun e => e.merchant_id == m) := by
    apply List.filter_congr
    intro e _
    by_cases hm : e.merchant_id = m
    · simp [hm, h e hm]
    · simp [hm]
  rw [revenue_eq_sum, revenue_eq_sum, List.filter_filter, hf]

theorem holding_cost_filter (events : List HoldingCostEvent) (P : HoldingCostEvent → Bool)
    (m : String) (h : ∀ e, e.merchant_id = m → P e = true) :
    holding_cost (events.filter P) m = holding_cost events m := by
  have hf : events.filter (fun e => e.merchant_id == m && P e) =
      events.filter (fun e => e.merchant_id == m) := by
    apply List.filter_congr
    intro e _
    by_cases hm : e.merchant_id = m
    · simp [hm, h e hm]
    · simp [hm]
  rw [holding_cost_eq_sum, holding_cost_eq_sum, List.filter_filter, hf]

theorem order_cost_filter (events : List RawProducer) (P : RawProducer → Bool)
    (m : String) (h : ∀ e, e.merchant_id = m → P e = true) :
    order_cost (events.filter P) m = order_cost events m := by
  have hf : events.filter (fun e => e.merchant_id == m && P e) =
      events.filter (fun e => e.merchant_id == m) := by
    apply List.filter_congr
    intro e _
    by_cases hm : e.merchant_id = m
    · simp [hm, h e hm]
    · simp [hm]
  rw [order_cost_eq_sum, order_cost_eq_sum, List.filter_filter, hf]

theorem mem_sortedMapping (mapping : List (String × String)) (p : String × String) :
    p ∈ sortedMapping mapping ↔ p ∈ mapping :=
  List.mem_mergeSort

/-! ### Helper lemmas about the reconstruction -/

theorem foldl_addDelta (deltas : List Delta) (acc : String → List (Nat × Int)) (m : String) :
    (deltas.foldl addDelta acc) m =
      acc m ++ (deltas.filter (fun d => d.1 == m)).map (fun d => (d.2.1, d.2.2)) := by
  induction deltas generalizing acc with
  | nil => simp
  | cons d ds ih =>
    rw [List.foldl_cons, ih]
    by_cases h : d.1 = m
    · subst h
      simp [addDelta, List.filter_cons, List.append_assoc]
    · have h' : ¬ m = d.1 := fun hh => h hh.symm
      simp [addDelta, List.filter_cons, h, h']

theorem inventoryProgressions_eq (deltas : List Delta) (m : String) :
    inventoryProgressions deltas m =
      (deltas.filter (fun d => d.1 == m)).map (fun d => (d.2.1, d.2.2)) := by
  simpa using foldl_addDelta deltas (fun _ => []) m

theorem length_accumFrom (acc : Int) (xs : List Int) :
    (accumFrom acc xs).length = xs.length := by
  induction xs generalizing acc with
  | nil => rfl
  | cons x xs ih => simp [accumFrom, ih]

theorem accumFrom_get (acc : Int) (xs : List Int) :
    ∀ (k : ℕ) (h : k < (accumFrom acc xs).length),
      (accumFrom acc xs).get ⟨k, h⟩ = acc + (xs.take (k + 1)).sum := by
  induction xs generalizing acc with
  | nil => intro k h; simp [accumFrom] at h
  | cons x xs ih =>
    intro k h
    cases k with
    | zero => simp [accumFrom]
    | succ k =>
      have hk : k < (accumFrom (acc + x) xs).length := by
        simpa [accumFrom] using h
      have hih := ih (acc + x) k hk
      simp only [List.get_eq_getElem] at hih
      simp only [accumFrom, List.get_eq_getElem, List.getElem_cons_succ, List.take_succ_cons,
        List.sum_cons, hih]
      ring

/-! ### Helper lemmas about timestamp conversion -/

theorem convertSaleTimestamps_none (parse : String → Option Nat) :
    ∀ (l : List RawBuyOffer), (∃ e ∈ l, parse e.timestamp = none) →
      convertSaleTimestamps parse l = none := by
  intro l
  induction l with
  | nil => intro h; simp at h
  | cons e es ih =>
    intro h
    rcases h with ⟨a, ha, hpa⟩
    rcases List.mem_cons.mp ha with rfl | ha
    · simp [convertSaleTimestamps, hpa]
    · simp only [convertSaleTimestamps]
      cases hp : parse e.timestamp
      · rfl
      · simp [ih ⟨a, ha, hpa⟩]

theorem convertOrderTimestamps_none (parse : String → Option Nat) :
    ∀ (l : List RawProducer), (∃ e ∈ l, parse e.timestamp = none) →
      convertOrderTimestamps parse l = none := by
  intro l
  induction l with
  | nil => intro h; simp at h
  | cons e es ih =>
    intro h
    rcases h with ⟨a, ha, hpa⟩
    rcases List.mem_cons.mp ha with rfl | ha
    · simp [convertOrderTimestamps, hpa]
    · simp only [convertOrderTimestamps]
      cases hp : parse e.timestamp
      · rfl
      · simp [ih ⟨a, ha, hpa⟩]

theorem inventoryGraphDeltas_none (parse : String → Option Nat)
    (rawSales : List RawBuyOffer) (rawOrders : List RawProducer)
    (h : (∃ e ∈ rawSales.filter (fun s => s.http_code == 200), parse e.timestamp = none) ∨
      ∃ e ∈ rawOrders, parse e.timestamp = none) :
    inventoryGraphDeltas parse rawSales rawOrders = none := by
  rcases h with h | h
  · rw [inventoryGraphDeltas, convertSaleTimestamps_none parse _ h]
  · simp only [inventoryGraphDeltas]
    cases hs : convertSaleTimestamps parse (rawSales.filter (fun s => s.http_code == 200))
    · rfl
    · simp [convertOrderTimestamps_none parse _ h]

theorem revenue_eq_zero_of_absent (events : List RawBuyOffer) (m : String)
    (h : ∀ e ∈ events, e.merchant_id ≠ m) : revenue events m = 0 := by
  rw [revenue_eq_sum]
  have hnil : events.filter (fun e => e.merchant_id == m) = [] :=
    List.filter_eq_nil_iff.mpr (by intro e he; simpa using h e he)
  simp [hnil]

theorem holding_cost_eq_zero_of_absent (events : List HoldingCostEvent) (m : String)
    (h : ∀ e ∈ events, e.merchant_id ≠ m) : holding_cost events m = 0 := by
  rw [holding_cost_eq_sum]
  have hnil : events.filter (fun e => e.merchant_id == m) = [] :=
    List.filter_eq_nil_iff.mpr (by intro e he; simpa using h e he)
  simp [hnil]

theorem order_cost_eq_zero_of_absent (events : List RawProducer) (m : String)
    (h : ∀ e ∈ events, e.merchant_id ≠ m) : order_cost events m = 0 := by
  rw [order_cost_eq_sum]
  have hnil : events.filter (fun e => e.merchant_id == m) = [] :=
    List.filter_eq_nil_iff.mpr (by intro e he; simpa using h e he)
  simp [hnil]

/-! ### The claims -/

/-- Claim C10: inside the merge loop of `create_inventory_graph` the two
exhaustion guard branches (taken when `sale_index >= len(sales)` or
`order_index >= len(orders)`, analyze.py lines 70-77) are never executed —
the loop condition already guarantees both indices are in range — and the
loop stops as soon as either input sequence is exhausted. -/
theorem merge_guard_branches_unreachable :
    (∀ (sales : List SaleEvent) (orders : List OrderEvent) (si oi : ℕ),
      deadGuardCount sales orders si oi = 0) ∧
    (∀ (sales : List SaleEvent) (orders : List OrderEvent) (si oi : ℕ),
      sales.length ≤ si ∨ orders.length ≤ oi →
      inventoryMerge sales orders si oi = []) :=
  ⟨deadGuardCount_eq_zero, inventoryMerge_stops⟩

theorem merge_guard_branches_unreachable_witness :
    deadGuardCount [⟨"m1", 2, 5, 200, 3⟩] [⟨"m1", 4, 7, 1⟩] 0 0 = 0 ∧
    inventoryMerge [⟨"m1", 2, 5, 200, 3⟩] [] 0 0 = [] :=
  ⟨merge_guard_branches_unreachable.1 _ _ 0 0,
   merge_guard_branches_unreachable.2 _ _ 0 0 (Or.inr (by decide))⟩

/-- Claim C2: on timestamp-sorted inputs, whenever the merge loop compares a
replenishment-order record and a purchase record with exactly equal
timestamps, the replenishment-origin delta is emitted first (the `<=`
comparison of analyze.py line 78 sends ties to the order branch). -/
theorem merge_tie_order_first (sales : List SaleEvent) (orders : List OrderEvent)
    (hs : sales.Pairwise (fun a b => a.timestamp ≤ b.timestamp))
    (ho : orders.Pairwise (fun a b => a.timestamp ≤ b.timestamp))
    (si oi : ℕ) (h1 : si < sales.length) (h2 : oi < orders.length)
    (hts : (orders.get ⟨oi, h2⟩).timestamp = (sales.get ⟨si, h1⟩).timestamp) :
    inventoryMerge sales orders si oi =
      orderDelta (orders.get ⟨oi, h2⟩) :: inventoryMerge sales orders si (oi + 1) :=
  inventoryMerge_tie sales orders si oi h1 h2 hts

theorem merge_tie_order_first_witness :
    inventoryMerge [⟨"m1", 2, 5, 200, 3⟩] [⟨"m2", 4, 7, 3⟩] 0 0 =
      orderDelta ⟨"m2", 4, 7, 3⟩ ::
        inventoryMerge [⟨"m1", 2, 5, 200, 3⟩] [⟨"m2", 4, 7, 3⟩] 0 1 :=
  merge_tie_order_first _ _ (by decide) (by decide) 0 0 (by decide) (by decide) (by decide)

/-- Claim C7: with both inputs sorted ascending by timestamp, any two deltas
emitted for the same merchant appear in non-decreasing timestamp order; and
on arbitrary (also unsorted) inputs the merge still returns a plain list —
at most one delta per consumed record and no error path at all. -/
theorem merge_per_entity_ordered :
    (∀ (sales : List SaleEvent) (orders : List OrderEvent),
      sales.Pairwise (fun a b => a.timestamp ≤ b.timestamp) →
      orders.Pairwise (fun a b => a.timestamp ≤ b.timestamp) →
      ∀ m : String,
        ((inventoryMerge sales orders 0 0).filter (fun d => d.1 == m)).Pairwise
          deltaTimeLE) ∧
    (∀ (sales : List SaleEvent) (orders : List OrderEvent),
      (inventoryMerge sales orders 0 0).length ≤ sales.length + orders.length) := by
  constructor
  · intro sales orders hs ho m
    rw [inventoryMerge_zero]
    exact (mergeAnd_pairwise sales orders hs ho).sublist (List.filter_sublist _)
  · intro sales orders
    rw [inventoryMerge_zero]
    exact length_mergeAnd sales orders

theorem merge_per_entity_ordered_witness :
    ((inventoryMerge [⟨"m1", 2, 5, 200, 4⟩, ⟨"m1", 1, 5, 200, 6⟩]
        [⟨"m1", 3, 7, 5⟩] 0 0).filter (fun d => d.1 == "m1")).Pairwise deltaTimeLE :=
  merge_per_entity_ordered.1 _ _ (by decide) (by decide) "m1"

/-- Claim C1 (refuted by the code, see RESULTS): at this input — one
successful sale at time 4, two replenishment orders at times 1 and 9, each
list sorted — the loop of `create_inventory_graph` stops once the sales list
is exhausted, so the second replenishment record never appears in the merged
sequence: the merge is not a true interleave of its inputs and does not
exhaust the remaining sequence. -/
theorem merge_drops_tail_at_input :
    inventoryMerge [⟨"m1", 2, 5, 200, 4⟩] [⟨"m1", 3, 7, 1⟩, ⟨"m1", 6, 7, 9⟩] 0 0 =
      [orderDelta ⟨"m1", 3, 7, 1⟩, saleDelta ⟨"m1", 2, 5, 200, 4⟩] ∧
    orderDelta ⟨"m1", 6, 7, 9⟩ ∉
      inventoryMerge [⟨"m1", 2, 5, 200, 4⟩] [⟨"m1", 3, 7, 1⟩, ⟨"m1", 6, 7, 9⟩] 0 0 := by
  have h : inventoryMerge [⟨"m1", 2, 5, 200, 4⟩] [⟨"m1", 3, 7, 1⟩, ⟨"m1", 6, 7, 9⟩] 0 0 =
      [orderDelta ⟨"m1", 3, 7, 1⟩, saleDelta ⟨"m1", 2, 5, 200, 4⟩] := by
    rw [inventoryMerge_zero, mergeAnd_cons_cons, if_pos (by decide), mergeAnd_cons_cons,
      if_neg (by decide), mergeAnd_nil_left]
  exact ⟨h, by rw [h]; decide⟩

/-- Claim C4: for every entity of the identifier mapping the profit
dictionary of analyze.py lines 41-42 holds exactly
`revenue - holding_cost - order_cost`, all three values read from the
finished aggregation dictionaries, and the dictionary has exactly the
mapping's keys. -/
theorem profit_is_revenue_minus_costs :
    (∀ (mapping : List (String × String)) (buys : List RawBuyOffer)
        (holds : List HoldingCostEvent) (prods : List RawProducer)
        (mid name : String), (mid, name) ∈ mapping →
      (mid, revenue buys mid - holding_cost holds mid - order_cost prods mid) ∈
        profitMap mapping buys holds prods) ∧
    (∀ (mapping : List (String × String)) (buys : List RawBuyOffer)
        (holds : List HoldingCostEvent) (prods : List RawProducer),
      (profitMap mapping buys holds prods).map Prod.fst = mapping.map Prod.fst ∧
      ∀ p ∈ profitMap mapping buys holds prods,
        p.2 = revenue buys p.1 - holding_cost holds p.1 - order_cost prods p.1) := by
  constructor
  · intro mapping buys holds prods mid name h
    exact List.mem_map_of_mem _ h
  · intro mapping buys holds prods
    constructor
    · simp [profitMap, List.map_map, Function.comp]
    · intro p hp
      obtain ⟨q, hq, rfl⟩ := List.mem_map.mp hp
      rfl

theorem profit_is_revenue_minus_costs_witness :
    ("m1", revenue [] "m1" - holding_cost [] "m1" - order_cost [] "m1") ∈
      profitMap [("m1", "Acme")] [] [] [] :=
  profit_is_revenue_minus_costs.1 _ _ _ _ "m1" "Acme" (List.mem_cons_self _ _)

/-- Claim C5: a merchant with no event in a given category gets summed value
exactly zero in that category (default-zero dictionary semantics), and a
merchant of the identifier mapping with no events at all still yields a
summary row, with all four totals zero. -/
theorem absent_merchant_zero :
    (∀ (events : List RawBuyOffer) (m : String),
      (∀ e ∈ events, e.merchant_id ≠ m) → revenue events m = 0) ∧
    (∀ (events : List HoldingCostEvent) (m : String),
      (∀ e ∈ events, e.merchant_id ≠ m) → holding_cost events m = 0) ∧
    (∀ (events : List RawProducer) (m : String),
      (∀ e ∈ events, e.merchant_id ≠ m) → order_cost events m = 0) ∧
    (∀ (mapping : List (String × String)) (mid name : String)
        (buys : List RawBuyOffer) (holds : List HoldingCostEvent)
        (prods : List RawProducer), (mid, name) ∈ mapping →
      (∀ e ∈ buys, e.merchant_id ≠ mid) → (∀ e ∈ holds, e.merchant_id ≠ mid) →
      (∀ e ∈ prods, e.merchant_id ≠ mid) →
      ((name, 0, 0, 0, 0) : SummaryRow) ∈ summaryRows mapping buys holds prods) := by
  refine ⟨revenue_eq_zero_of_absent, holding_cost_eq_zero_of_absent,
    order_cost_eq_zero_of_absent, ?_⟩
  intro mapping mid name buys holds prods hmem hb hh hp
  have hrow : ((name, revenue buys mid, holding_cost holds mid, order_cost prods mid,
      profitOf buys holds prods mid) : SummaryRow) ∈ summaryRows mapping buys holds prods :=
    List.mem_map_of_mem _ ((mem_sortedMapping mapping (mid, name)).mpr hmem)
  have h1 := revenue_eq_zero_of_absent buys mid hb
  have h2 := holding_cost_eq_zero_of_absent holds mid hh
  have h3 := order_cost_eq_zero_of_absent prods mid hp
  have h4 : profitOf buys holds prods mid = 0 := by
    rw [profitOf, h1, h2, h3]; ring
  rw [h1, h2, h3, h4] at hrow
  exact hrow

theorem absent_merchant_zero_witness :
    revenue [⟨"m2", 1, 3, 200, "t0"⟩] "m1" = 0 ∧
    ((("Acme", 0, 0, 0, 0) : SummaryRow) ∈ summaryRows [("m1", "Acme")] [] [] []) :=
  ⟨absent_merchant_zero.1 _ "m1" (by decide),
   absent_merchant_zero.2.2.2 _ "m1" "Acme" [] [] [] (List.mem_cons_self _ _)
     (by simp) (by simp) (by simp)⟩

/-- Claim C8: the aggregation sums events under any merchant id, also one
missing from the identifier mapping; but the summary table has exactly one
row per mapping entry and is unchanged when all events of merchants unknown
to the mapping are discarded — such events are silently dropped from the
table, with no error and no row. -/
theorem unknown_merchant_summed_but_no_row :
    (∀ (events : List RawBuyOffer) (m : String),
      revenue events m = ((events.filter (fun e => e.merchant_id == m)).map
        (fun e => (e.amount : Rat) * e.price)).sum) ∧
    (∀ (mapping : List (String × String)) (buys : List RawBuyOffer)
        (holds : List HoldingCostEvent) (prods : List RawProducer),
      (summaryRows mapping buys holds prods).length = mapping.length) ∧
    (∀ (mapping : List (String × String)) (buys : List RawBuyOffer)
        (holds : List HoldingCostEvent) (prods : List RawProducer),
      summaryRows mapping buys holds prods =
        summaryRows mapping
          (buys.filter (fun e => decide (e.merchant_id ∈ mapping.map Prod.fst)))
          (holds.filter (fun e => decide (e.merchant_id ∈ mapping.map Prod.fst)))
          (prods.filter (fun e => decide (e.merchant_id ∈ mapping.map Prod.fst)))) := by
  refine ⟨revenue_eq_sum, ?_, ?_⟩
  · intro mapping buys holds prods
    simp [summaryRows, sortedMapping]
  · intro mapping buys holds prods
    unfold summaryRows
    apply List.map_congr_left
    intro p hp
    have hkey : p.1 ∈ mapping.map Prod.fst :=
      List.mem_map_of_mem Prod.fst ((mem_sortedMapping mapping p).mp hp)
    have hP : ∀ (e : String), e = p.1 → decide (e ∈ mapping.map Prod.fst) = true :=
      fun e he => decide_eq_true (he ▸ hkey)
    simp only [profitOf]
    rw [revenue_filter buys _ p.1 (fun e he => hP e.merchant_id he),
      holding_cost_filter holds _ p.1 (fun e he => hP e.merchant_id he),
      order_cost_filter prods _ p.1 (fun e he => hP e.merchant_id he)]

/-- Claim C6: a purchase event with a non-success outcome code still adds
its `amount * price` to the revenue aggregation (no outcome filter there),
but the merge input keeps only sales with `http_code == 200`, so every
sale-origin delta of the merged sequence stems from a successful purchase;
replenishment orders reach the merge unfiltered. -/
theorem failed_sales_revenue_not_inventory :
    (∀ (e : RawBuyOffer) (events : List RawBuyOffer), e.http_code ≠ 200 →
      revenue (e :: events) e.merchant_id =
        (e.amount : Rat) * e.price + revenue events e.merchant_id) ∧
    (∀ (sales : List SaleEvent) (orders : List OrderEvent),
      ∀ d ∈ createInventoryDeltas sales orders,
        (∃ o ∈ orders, d = orderDelta o) ∨
        ∃ s ∈ sales, s.http_code = 200 ∧ d = saleDelta s) ∧
    (∀ (sales : List SaleEvent) (orders : List OrderEvent),
      createInventoryDeltas sales orders =
        inventoryMerge (sales.filter (fun s => s.http_code == 200)) orders 0 0) := by
  refine ⟨?_, ?_, fun _ _ => rfl⟩
  · intro e events _
    rw [revenue_cons]
    simp
  · intro sales orders d hd
    rw [createInventoryDeltas, salesForMerge, inventoryMerge_zero] at hd
    rcases mem_mergeAnd _ _ d hd with ⟨s, hs, rfl⟩ | ⟨o, ho, rfl⟩
    · rcases List.mem_filter.mp hs with ⟨hs', hcode⟩
      exact Or.inr ⟨s, hs', by simpa using hcode, rfl⟩
    · exact Or.inl ⟨o, ho, rfl⟩

theorem failed_sales_revenue_not_inventory_witness :
    revenue [⟨"m1", 2, 5, 500, "t0"⟩, ⟨"m1", 1, 4, 200, "t1"⟩] "m1" =
      (2 : Rat) * 5 + revenue [⟨"m1", 1, 4, 200, "t1"⟩] "m1" ∧
    ((∃ o ∈ ([⟨"m2", 3, 7, 1⟩] : List OrderEvent),
        orderDelta ⟨"m2", 3, 7, 1⟩ = orderDelta o) ∨
      ∃ s ∈ ([⟨"m1", 2, 5, 200, 4⟩] : List SaleEvent),
        s.http_code = 200 ∧ orderDelta ⟨"m2", 3, 7, 1⟩ = saleDelta s) := by
  constructor
  · exact failed_sales_revenue_not_inventory.1 ⟨"m1", 2, 5, 500, "t0"⟩ _ (by decide)
  · apply failed_sales_revenue_not_inventory.2.1 [⟨"m1", 2, 5, 200, 4⟩] [⟨"m2", 3, 7, 1⟩]
    have h0 : createInventoryDeltas [⟨"m1", 2, 5, 200, 4⟩] [⟨"m2", 3, 7, 1⟩] =
        inventoryMerge [⟨"m1", 2, 5, 200, 4⟩] [⟨"m2", 3, 7, 1⟩] 0 0 := rfl
    rw [h0, inventoryMerge_zero, mergeAnd_cons_cons, if_pos (by decide), mergeAnd_nil_right]
    exact List.mem_cons_self _ _

/-- Claim C3: with both merge inputs sorted ascending by timestamp and for
any merchant, the reconstructed level series has the same length as the
merchant's partition of the merged delta sequence, the partition is
non-decreasing in timestamp, and the level at position `k` equals the sum of
the first `k + 1` deltas of the partition (the running prefix sum of
`itertools.accumulate`). -/
theorem levels_are_prefix_sums (sales : List SaleEvent) (orders : List OrderEvent)
    (m : String)
    (hs : sales.Pairwise (fun a b => a.timestamp ≤ b.timestamp))
    (ho : orders.Pairwise (fun a b => a.timestamp ≤ b.timestamp)) :
    (inventoryLevels ((inventoryProgressions (inventoryMerge sales orders 0 0) m).map
        Prod.snd)).length =
      (inventoryProgressions (inventoryMerge sales orders 0 0) m).length ∧
    (inventoryProgressions (inventoryMerge sales orders 0 0) m).Pairwise
      (fun a b => a.1 ≤ b.1) ∧
    ∀ (k : ℕ) (h : k < (inventoryLevels ((inventoryProgressions
        (inventoryMerge sales orders 0 0) m).map Prod.snd)).length),
      (inventoryLevels ((inventoryProgressions (inventoryMerge sales orders 0 0) m).map
          Prod.snd)).get ⟨k, h⟩ =
        (((inventoryProgressions (inventoryMerge sales orders 0 0) m).map Prod.snd).take
          (k + 1)).sum := by
  refine ⟨?_, ?_, ?_⟩
  · rw [inventoryLevels, length_accumFrom, List.length_map]
  · rw [inventoryProgressions_eq]
    have hpw : ((inventoryMerge sales orders 0 0).filter
        (fun d => d.1 == m)).Pairwise deltaTimeLE := by
      rw [inventoryMerge_zero]
      exact (mergeAnd_pairwise sales orders hs ho).sublist (List.filter_sublist _)
    exact hpw.map _ (fun a b hab => hab)
  · intro k h
    exact (accumFrom_get 0 _ k h).trans (zero_add _)

theorem levels_are_prefix_sums_witness :
    (inventoryLevels ((inventoryProgressions
        (inventoryMerge [⟨"m1", 2, 5, 200, 4⟩] [⟨"m1", 3, 7, 1⟩] 0 0) "m1").map
        Prod.snd)).length =
      (inventoryProgressions
        (inventoryMerge [⟨"m1", 2, 5, 200, 4⟩] [⟨"m1", 3, 7, 1⟩] 0 0) "m1").length :=
  (levels_are_prefix_sums _ _ "m1" (by decide) (by decide)).1

/-- Claim C9 counterexample: this purchase record has an unparseable
timestamp but outcome code 500; since `create_inventory_graph` filters
sales by outcome BEFORE converting timestamps, the reconstruction does not
abort — it completes and returns a (here empty) merged sequence — refuting
the claim for unsuccessful purchase events. -/
theorem unparseable_failed_sale_no_abort :
    parseTimestampZ "garbage" = none ∧
    inventoryGraphDeltas parseTimestampZ [⟨"m1", 1, 5, 500, "garbage"⟩] [] = some [] := by
  constructor
  · rfl
  · have h : inventoryGraphDeltas parseTimestampZ [⟨"m1", 1, 5, 500, "garbage"⟩] [] =
        some (inventoryMerge [] [] 0 0) := rfl
    rw [h, inventoryMerge_stops _ _ 0 0 (Or.inl (by decide))]

/-- Claim C9 as amended: if the timestamp string of any SUCCESSFUL purchase
record or of any replenishment record fails to parse, the whole delta
reconstruction yields no output at all — all timestamps are converted
before any delta is emitted, so there is no partial series for any
entity. -/
theorem unparseable_timestamp_aborts (parse : String → Option Nat)
    (rawSales : List RawBuyOffer) (rawOrders : List RawProducer)
    (h : (∃ e ∈ rawSales, e.http_code = 200 ∧ parse e.timestamp = none) ∨
      ∃ e ∈ rawOrders, parse e.timestamp = none) :
    inventoryGraphDeltas parse rawSales rawOrders = none := by
  apply inventoryGraphDeltas_none
  rcases h with ⟨e, he, hcode, hp⟩ | h
  · exact Or.inl ⟨e, List.mem_filter.mpr ⟨he, by simp [hcode]⟩, hp⟩
  · exact Or.inr h

theorem unparseable_timestamp_aborts_witness :
    inventoryGraphDeltas parseTimestampZ [⟨"m1", 1, 5, 200, "garbage"⟩] [] = none :=
  unparseable_timestamp_aborts parseTimestampZ _ _
    (Or.inl ⟨⟨"m1", 1, 5, 200, "garbage"⟩, List.mem_cons_self _ _, rfl, rfl⟩)

end PriceWars
